import Mathlib

/-!
Verification of the gitsum repository-ingestion and model-invocation core.

The definitions below are a shallow embedding of the TypeScript sources:

* `src/lib/file-selector.ts` — path classifiers and the budgeted file
  selector `selectFiles`;
* `src/lib/github.ts` — `fetchFileContents`, the batched fault-tolerant
  content fetcher;
* the Gemini invocation engine (`callGeminiAPI` with its error
  classifiers and model-fallback loop), the prompt context builder
  `constructFilesContext`, the response extractor `extractJSON`, and the
  result mapping of `analyzeCodebase`.

Modelling conventions:

* JavaScript strings are modelled as Lean `String` (a list of characters);
  `split`, `includes`, `endsWith`, `toLowerCase` are re-implemented as
  structural recursions over `List Char` so that every definition is
  executable and kernel-reducible.
* JavaScript numbers: byte sizes, budgets and attempt counters are `Nat`.
  `Math.ceil(n / 3.5)` equals `(2 * n + 6) / 7` in exact arithmetic, and
  for all relevant magnitudes the IEEE double computation agrees with the
  exact one, so `estimateTokens` is embedded as that `Nat` expression.
  The float relevance score `base - 5 * log10 (max (size / 1024) 1)` is
  represented symbolically by `ScoreVal` (the integer part `base` and the
  argument `sizeM = max size 1024`, so that the real score is
  `base - 5 * (Real.log10 sizeM - Real.log10 1024)`); the sort comparator
  is decided exactly via the strictly monotone transform `x ↦ 10 ^ x`,
  which turns the comparison into one between natural numbers.
* Promise rejection / thrown exceptions are modelled with `Except` and
  explicit outcome types; network behaviour is an oracle argument
  (a function from the request to the modelled response).
-/

/-! ## Generic string utilities (JS string primitives over `List Char`) -/

/-- ASCII lower-casing of one character, as `String.prototype.toLowerCase`
acts on the ASCII range (all paths and patterns compared in the source are
ASCII). -/
def charLower (c : Char) : Char :=
  if 'A' ≤ c ∧ c ≤ 'Z' then Char.ofNat (c.toNat + 32) else c

/-- `s.toLowerCase()` on ASCII text. -/
def lowerStr (s : String) : String := String.mk (s.data.map charLower)

/-- Is `p` a prefix of `s` (on character lists)? -/
def listPrefixOf : List Char → List Char → Bool
  | [], _ => true
  | _ :: _, [] => false
  | a :: as, b :: bs => a == b && listPrefixOf as bs

/-- Is `p` a contiguous substring of `s`? Implements `s.includes(p)`. -/
def listInfixOf (p : List Char) : List Char → Bool
  | [] => listPrefixOf p []
  | c :: cs => listPrefixOf p (c :: cs) || listInfixOf p cs

/-- `s.includes(pat)`. -/
def containsSub (s pat : String) : Bool := listInfixOf pat.data s.data

/-- `s.endsWith(suf)`. -/
def endsWithStr (s suf : String) : Bool :=
  listPrefixOf suf.data.reverse s.data.reverse

/-- Auxiliary splitter: accumulates the current field (reversed). -/
def splitOnCharAux (sep : Char) : List Char → List Char → List (List Char)
  | [], acc => [acc.reverse]
  | c :: cs, acc =>
    if c == sep then acc.reverse :: splitOnCharAux sep cs []
    else splitOnCharAux sep cs (c :: acc)

/-- `s.split(sep)` for a one-character separator, with JavaScript's
semantics: the result is never empty and empty fields are kept. -/
def splitStr (sep : Char) (s : String) : List String :=
  (splitOnCharAux sep s.data []).map String.mk

/-- `s.split(sep).pop()`: the last field. JavaScript's `split` never
returns an empty array, so `pop()` is always defined; `none` can only
arise from the empty list and is mapped to the JS `undefined` fallbacks
at each use site. -/
def lastSplit (sep : Char) (s : String) : Option String :=
  (splitStr sep s).getLast?

/-! ## `src/lib/file-selector.ts` — data model and classifiers -/

/-- One entry of the repository's flat file listing
(`GitHubTreeItem` in `src/lib/github.ts`). -/
structure GitHubTreeItem where
  path : String
  mode : String
  type : String
  sha : String
  size : Option Nat
  url : String
deriving DecidableEq, Repr

/-- `FileWithContent` of `src/lib/github.ts`: a tree entry plus realized
text content. -/
structure FileWithContent extends GitHubTreeItem where
  content : String
deriving DecidableEq, Repr

/-- The binary-extension denylist of `isBinaryFile`. -/
def binaryExtensions : List String :=
  [".png", ".jpg", ".jpeg", ".gif", ".bmp", ".ico", ".svg",
   ".pdf", ".zip", ".tar", ".gz", ".7z", ".rar",
   ".exe", ".dll", ".so", ".dylib",
   ".class", ".jar", ".war",
   ".mp3", ".mp4", ".wav", ".avi", ".mov",
   ".woff", ".woff2", ".ttf", ".eot",
   ".bin", ".dat",
   ".pyc", ".pyo",
   ".node",
   ".db", ".sqlite"]

/-- `isBinaryFile(path, size?)`: extension in the denylist, or size over
1 MiB.  `ext` is the last `.`-separated field of the lower-cased path; the
JS guard `if (ext && ...)` skips the check when that field is the empty
string, and `if (size && size > 1024*1024)` is false for an absent size. -/
def isBinaryFile (path : String) (size : Option Nat) : Bool :=
  (match lastSplit '.' (lowerStr path) with
   | some ext => ext ≠ "" && binaryExtensions.contains ("." ++ ext)
   | none => false)
  || (match size with
      | some s => decide (s > 1024 * 1024)
      | none => false)

/-- The minification markers of `isMinifiedFile`. -/
def minifiedPatterns : List String :=
  [".min.js", ".min.css", ".bundle.js", ".bundle.css", ".chunk.js"]

/-- `isMinifiedFile(path)`: the path (not lower-cased) contains one of the
markers. -/
def isMinifiedFile (path : String) : Bool :=
  minifiedPatterns.any (fun pattern => containsSub path pattern)

/-- The well-known configuration filenames of `isConfigFile`. -/
def configFiles : List String :=
  ["package.json", "package-lock.json", "yarn.lock", "pnpm-lock.yaml",
   "requirements.txt", "setup.py", "pyproject.toml", "Pipfile",
   "Cargo.toml", "go.mod", "go.sum", "pom.xml", "build.gradle",
   "Gemfile", "composer.json", "dockerfile", "docker-compose.yml",
   ".env.example", "tsconfig.json", ".eslintrc", ".prettierrc",
   "next.config.js", "vite.config.js", "webpack.config.js",
   "rollup.config.js", "tailwind.config.js"]

/-- `isConfigFile(path)`: the lower-cased path ends with a known config
filename, bare or after a slash. -/
def isConfigFile (path : String) : Bool :=
  configFiles.any (fun file =>
    endsWithStr (lowerStr path) file || endsWithStr (lowerStr path) ("/" ++ file))

/-- The documentation markers of `isDocumentationFile`. -/
def docPatterns : List String :=
  ["readme", "contributing", "changelog", "license", "docs/", "doc/"]

/-- `isDocumentationFile(path)`: the lower-cased path contains one of the
documentation markers. -/
def isDocumentationFile (path : String) : Bool :=
  docPatterns.any (fun pattern => containsSub (lowerStr path) pattern)

/-- The entry-point basenames of `isEntryPoint`. -/
def entryPoints : List String :=
  ["index.js", "index.ts", "index.tsx", "index.jsx",
   "main.js", "main.ts", "main.py", "main.go",
   "app.js", "app.ts", "app.tsx", "server.js", "server.ts"]

/-- `isEntryPoint(path)`: the basename (last `/`-field) of the lower-cased
path, with `|| ''` for the JS `undefined` fallback, is a known entry
point. -/
def isEntryPoint (path : String) : Bool :=
  entryPoints.contains ((lastSplit '/' (lowerStr path)).getD "")

/-- The source-code extensions of `isSourceFile`. -/
def sourceExtensions : List String :=
  [".js", ".jsx", ".ts", ".tsx", ".mjs", ".cjs",
   ".py", ".rb", ".go", ".java", ".kt", ".scala",
   ".c", ".cpp", ".h", ".hpp", ".cs",
   ".php", ".swift", ".rs",
   ".vue", ".svelte"]

/-- `isSourceFile(path)`: the last `.`-field of the lower-cased path names
a source extension (`return ext ? ... : false`, so an empty field fails). -/
def isSourceFile (path : String) : Bool :=
  match lastSplit '.' (lowerStr path) with
  | some ext => ext ≠ "" && sourceExtensions.contains ("." ++ ext)
  | none => false

/-- `isRootFile(path)`: no slash in the path. -/
def isRootFile (path : String) : Bool :=
  (splitStr '/' path).length == 1

/-- `estimateTokens(contentLength)`: `Math.ceil(contentLength / 3.5)`,
which is `⌈2n/7⌉ = (2n + 6) / 7` in exact arithmetic (and the IEEE double
computation agrees on every byte size the selector can see, since sizes
over 1 MiB are discarded as binary long before the rounding error of the
double division could reach `1/7`). -/
def estimateTokens (contentLength : Nat) : Nat := (2 * contentLength + 6) / 7

/-- `file.path.split('/').length - 1`, the depth penalty's factor. -/
def pathDepth (path : String) : Nat := (splitStr '/' path).length - 1

/-- Symbolic value of the float relevance score.  The real score is
`base - 5 * log10 (sizeM / 1024)`, where `sizeM = max size 1024` encodes
`max (size / 1024) 1` in KiB without leaving the naturals. -/
structure ScoreVal where
  base : Int
  sizeM : Nat
deriving DecidableEq, Repr

/-- The integer part of the score: the additive category weights and the
depth penalty of `selectFiles`' scoring loop. -/
def scoreBase (path : String) : Int :=
  (if isRootFile path then (100 : Int) else 0)
  + (if isEntryPoint path then 90 else 0)
  + (if isConfigFile path then 80 else 0)
  + (if isDocumentationFile path then 70 else 0)
  + (if isSourceFile path then 60 else 0)
  - 10 * (pathDepth path : Int)

/-- The score of a kept entry of byte size `sz`. -/
def mkScoreVal (path : String) (sz : Nat) : ScoreVal :=
  { base := scoreBase path, sizeM := max sz 1024 }

/-- Exact decision of `score a ≤ score b` for the real-valued score
`base - 5 * log10 (sizeM / 1024)`: applying the strictly monotone map
`x ↦ 10 ^ (x / 5)` turns it into a comparison of naturals,
`10 ^ (a.base - b.base) * b.sizeM ^ 5 ≤ a.sizeM ^ 5`. -/
def scoreLE (a b : ScoreVal) : Bool :=
  let d : Int := a.base - b.base
  if 0 ≤ d then decide (10 ^ d.toNat * b.sizeM ^ 5 ≤ a.sizeM ^ 5)
  else decide (b.sizeM ^ 5 ≤ 10 ^ (-d).toNat * a.sizeM ^ 5)

/-- `FileScore` of `src/lib/file-selector.ts`. -/
structure FileScore where
  file : GitHubTreeItem
  score : ScoreVal
  estimatedTokens : Nat
deriving DecidableEq, Repr

/-- The body of `selectFiles`' scoring loop for one entry: `continue` on
an absent or zero size (`!file.size`), on a binary classification and on a
minified classification, otherwise score the file. -/
def scoreEntry (file : GitHubTreeItem) : Option FileScore :=
  match file.size with
  | none => none
  | some sz =>
    if sz = 0 then none
    else if isBinaryFile file.path file.size then none
    else if isMinifiedFile file.path then none
    else some { file := file
                score := mkScoreVal file.path sz
                estimatedTokens := estimateTokens sz }

/-- The scoring loop of `selectFiles` over the whole tree. -/
def scoreTree (tree : List GitHubTreeItem) : List FileScore :=
  tree.filterMap scoreEntry

/-- `a` sorts no later than `b` under `sort((a, b) => b.score - a.score)`:
`score b ≤ score a`. -/
def scoreGE (a b : FileScore) : Bool := scoreLE b.score a.score

/-- Stable insertion for the descending-score sort. -/
def insertScored (x : FileScore) : List FileScore → List FileScore
  | [] => [x]
  | y :: ys => if scoreGE x y then x :: y :: ys else y :: insertScored x ys

/-- `scoredFiles.sort((a, b) => b.score - a.score)`: a stable sort by
descending score (JavaScript's sort is stable). -/
def sortScored : List FileScore → List FileScore
  | [] => []
  | x :: xs => insertScored x (sortScored xs)

/-- The greedy budget walk of `selectFiles`: skip (not stop at) any file
that would overflow the remaining budget. -/
def greedy (maxTokens : Nat) : List FileScore → List GitHubTreeItem → Nat → List GitHubTreeItem
  | [], selected, _ => selected
  | sf :: rest, selected, currentTokens =>
    if currentTokens + sf.estimatedTokens > maxTokens then
      greedy maxTokens rest selected currentTokens
    else
      greedy maxTokens rest (selected ++ [sf.file]) (currentTokens + sf.estimatedTokens)

/-- `selectFiles(tree, maxTokens = 950000)` of `src/lib/file-selector.ts`. -/
def selectFiles (tree : List GitHubTreeItem) (maxTokens : Nat := 950000) : List GitHubTreeItem :=
  greedy maxTokens (sortScored (scoreTree tree)) [] 0

/-- The estimated token cost attributed to a selected file (every selected
file has a recorded size, so the `getD` default is never taken). -/
def tokensOf (f : GitHubTreeItem) : Nat := estimateTokens (f.size.getD 0)

/-- Total estimated token cost of a list of files. -/
def tokenSum (l : List GitHubTreeItem) : Nat := (l.map tokensOf).sum

/-! ## `src/lib/github.ts` — `fetchFileContents`

The network is an oracle `fetch : GitHubTreeItem → FetchOutcome`: the
source's per-file promise resolves to the decoded content on success and
to `null` on any failure (non-ok status returns `null`, a thrown
`response.json()` / network / decode error is caught and returns `null`),
so the modelled outcome is exactly that dichotomy. -/

/-- What one file's fetch promise resolves to. -/
inductive FetchOutcome where
  | ok (content : String)
  | failed
deriving DecidableEq, Repr

/-- Did the fetch of this file succeed? -/
def isFetchOk : FetchOutcome → Bool
  | .ok _ => true
  | .failed => false

/-- Cuts a list into slices of `batchSize` (the source's
`files.slice(i, i + batchSize)` loop), with the list length as fuel so the
recursion is structural. -/
def chunkListGo (batchSize : Nat) : Nat → List α → List (List α)
  | 0, _ => []
  | _, [] => []
  | fuel + 1, x :: xs =>
    (x :: xs).take batchSize :: chunkListGo batchSize fuel ((x :: xs).drop batchSize)

/-- The batches of the fetch loop (`batchSize = 50`). -/
def chunkList (batchSize : Nat) (l : List α) : List (List α) :=
  chunkListGo batchSize l.length l

/-- One file's promise: on success the tree entry plus decoded content, on
any failure `null` (dropped by the batch filter). -/
def fetchOne (fetch : GitHubTreeItem → FetchOutcome) (file : GitHubTreeItem) :
    Option FileWithContent :=
  match fetch file with
  | .ok content => some { file with content := content }
  | .failed => none

/-- `fetchFileContents(owner, repo, files, token?)`: batches of 50,
`Promise.all` within a batch, `filter(f => f !== null)` on the batch's
results, accumulated across batches.  Owner, repo and token only shape the
request the oracle answers, so they are folded into `fetch`. -/
def fetchFileContents (files : List GitHubTreeItem)
    (fetch : GitHubTreeItem → FetchOutcome) : List FileWithContent :=
  (chunkList 50 files).foldl
    (fun results batch => results ++ batch.filterMap (fetchOne fetch)) []

/-! ## The Gemini invocation engine (`callGeminiAPI`) -/

/-- The fixed fallback ordering `GEMINI_MODELS`, newest to oldest. -/
def GEMINI_MODELS : List String :=
  ["gemini-3.0-flash", "gemini-2.5-flash", "gemini-2.0-flash",
   "gemini-1.5-flash", "gemini-1.5-pro", "gemini-pro"]

/-- The `error` member of a structured Gemini error payload
(the `GeminiError` interface). -/
structure GeminiErrorInfo where
  code : Option Int := none
  message : Option String := none
  status : Option String := none
deriving DecidableEq, Repr

/-- `errorData`: the parsed body of a non-ok response — either the
structured payload (with its `error` member) or the fallback
`{ message: errorText }`. -/
structure ErrorData where
  error : Option GeminiErrorInfo := none
  message : Option String := none
deriving DecidableEq, Repr

/-- A JavaScript `Error` value as the engine's classifiers see it:
`name` and `message` from the `Error` itself, plus the ad hoc properties
the source attaches (`status`, `geminiError`).  `errorField` is the
object's own `error` property — what `error as GeminiError` actually reads
— which the source never sets on the errors it constructs. -/
structure ErrObj where
  name : String := "Error"
  message : String := ""
  status : Option Nat := none
  geminiError : Option ErrorData := none
  errorField : Option GeminiErrorInfo := none
deriving DecidableEq, Repr

/-- `error?.message || error?.toString() || ''`: an empty message falls
back to the `Error`'s string form, whose relevant part is its name. -/
def errMsgOf (e : ErrObj) : String := if e.message = "" then e.name else e.message

/-- `isInvalidApiKeyError`: requires the object's own `error.code` to be
403 or 401 and the lower-cased message to mention the key. -/
def isInvalidApiKeyError (e : ErrObj) : Bool :=
  match e.errorField with
  | some gi =>
    (gi.code == some 403 || gi.code == some 401)
    && (containsSub (lowerStr (errMsgOf e)) "api key"
        || containsSub (lowerStr (errMsgOf e)) "authentication"
        || containsSub (lowerStr (errMsgOf e)) "unauthorized")
  | none => false

/-- The message patterns of `isModelNotFoundError` (its two case variants
coincide after lower-casing). -/
def modelNotFoundPatterns : List String :=
  ["model not found", "model does not exist", "invalid model",
   "does not support this model"]

/-- `isModelNotFoundError`. -/
def isModelNotFoundError (e : ErrObj) : Bool :=
  (match e.errorField with
   | some gi => gi.code == some 404
   | none => false)
  || modelNotFoundPatterns.any (fun p => containsSub (lowerStr (errMsgOf e)) p)

/-- `isRateLimitError`. -/
def isRateLimitError (e : ErrObj) : Bool :=
  (match e.errorField with
   | some gi => gi.code == some 429
   | none => false)
  || containsSub (lowerStr (errMsgOf e)) "quota"
  || containsSub (lowerStr (errMsgOf e)) "rate limit"
  || containsSub (lowerStr (errMsgOf e)) "resource exhausted"

/-- The message patterns of `isTemporaryError`. -/
def temporaryPatterns : List String :=
  ["timeout", "deadline exceeded", "service unavailable", "try again later"]

/-- `isTemporaryError`: own `error.code ≥ 500` (false when the property is
absent, as `undefined >= 500` is) or a transient-sounding message. -/
def isTemporaryError (e : ErrObj) : Bool :=
  (match e.errorField with
   | some gi => match gi.code with
     | some c => decide (c ≥ 500)
     | none => false
   | none => false)
  || temporaryPatterns.any (fun p => containsSub (lowerStr (errMsgOf e)) p)

/-- The `Error` the source constructs for a non-ok response:
`new Error(errorData.error?.message || errorText)` with `status` and
`geminiError` attached as extra properties — and, crucially, no own
`error` property. -/
def mkHttpError (status : Nat) (errorData : ErrorData) (errorText : String) : ErrObj :=
  { name := "Error"
    message := match errorData.error with
      | some gi => match gi.message with
        | some m => if m = "" then errorText else m
        | none => errorText
      | none => errorText
    status := some status
    geminiError := some errorData
    errorField := none }

/-- The `Error` thrown by the invalid-key abort inside the try block. -/
def invalidKeyThrownError : ErrObj :=
  { name := "Error"
    message := "Invalid Gemini API key. Please check your API key and try again." }

/-- The `TypeError` thrown by `data.candidates[0].content.parts[0].text`
when `content` or `parts[0]` is missing. -/
def typeAccessError : ErrObj :=
  { name := "TypeError"
    message := "Cannot read properties of undefined" }

/-- One element of `data.candidates`.  `content = none` models a response
whose `content.parts[0]` is missing (property access throws);
`content = some none` models a present part without a `text` property
(`resultText` is `undefined`); `content = some (some t)` is extracted
text `t`. -/
structure Candidate where
  finishReason : Option String := none
  content : Option (Option String) := some none
deriving DecidableEq, Repr

/-- The parsed body of an ok response. -/
structure ResponseData where
  candidates : List Candidate
deriving DecidableEq, Repr

/-- What one HTTP round trip to the model yields: an ok response with a
parsed body, a non-ok response with status, parsed error body and raw
error text, or a thrown fetch/parse/abort error. -/
inductive ApiResponse where
  | ok (data : ResponseData)
  | httpError (status : Nat) (errorData : ErrorData) (errorText : String)
  | netExn (e : ErrObj)
deriving DecidableEq, Repr

/-- What one iteration of the attempt loop does: `return` a success,
`break` to the next model, `continue` to the next attempt, or throw out of
`callGeminiAPI` entirely. -/
inductive AttemptOutcome where
  | success (text : String)
  | breakModel
  | retryModel
  | fatal (e : ErrObj)
deriving DecidableEq, Repr

/-- The catch block of the attempt loop: rethrow an invalid-key
classification, break on model-not-found or an aborted (timed-out)
request, break when the retries are exhausted, otherwise delay and
retry. -/
def catchHandler (e : ErrObj) (attempt maxRetries : Nat) : AttemptOutcome :=
  if isInvalidApiKeyError e then .fatal e
  else if isModelNotFoundError e then .breakModel
  else if e.name = "AbortError" then .breakModel
  else if attempt = maxRetries - 1 then .breakModel
  else .retryModel

/-- The non-ok branch of the try block: classify, throw on invalid key
(then immediately caught by the catch block of the same iteration), break
on model-not-found or rate-limit, retry with backoff on a temporary error
while attempts remain, otherwise throw the constructed error (also caught
by the catch block). -/
def tryHttpError (status : Nat) (errorData : ErrorData) (errorText : String)
    (attempt maxRetries : Nat) : AttemptOutcome :=
  let e := mkHttpError status errorData errorText
  if isInvalidApiKeyError e then catchHandler invalidKeyThrownError attempt maxRetries
  else if isModelNotFoundError e then .breakModel
  else if isRateLimitError e then .breakModel
  else if isTemporaryError e then
    (if attempt < maxRetries - 1 then .retryModel else .breakModel)
  else catchHandler e attempt maxRetries

/-- `finishReason && finishReason !== 'STOP'` followed by the `SAFETY` and
`RECITATION` breaks — any other non-stop reason only logs and falls
through. -/
def breaksOnFinish : Option String → Bool
  | some r => r ≠ "STOP" && (r == "SAFETY" || r == "RECITATION")
  | none => false

/-- The ok branch of the try block: break on an empty candidate list, on a
safety or recitation block and on empty extracted text; accessing text
under a missing `content` throws a `TypeError` into the catch block;
otherwise return the text. -/
def tryOk (d : ResponseData) (attempt maxRetries : Nat) : AttemptOutcome :=
  match d.candidates with
  | [] => .breakModel
  | c :: _ =>
    if breaksOnFinish c.finishReason then .breakModel
    else match c.content with
      | none => catchHandler typeAccessError attempt maxRetries
      | some none => .breakModel
      | some (some t) => if t = "" then .breakModel else .success t

/-- One iteration of the attempt loop, given the round trip's outcome. -/
def attemptStep (r : ApiResponse) (attempt maxRetries : Nat) : AttemptOutcome :=
  match r with
  | .ok d => tryOk d attempt maxRetries
  | .httpError status errorData errorText =>
    tryHttpError status errorData errorText attempt maxRetries
  | .netExn e => catchHandler e attempt maxRetries

/-- How the attempt loop for one model ends. -/
inductive ModelOutcome where
  | success (text : String)
  | exhausted
  | fatal (e : ErrObj)
deriving DecidableEq, Repr

/-- The attempt loop for one model: `resp n` is what the n-th attempt's
round trip yields.  Returns the outcome and the number of attempts made;
the loop bound `maxRetries` doubles as structural fuel. -/
def runModelGo (resp : Nat → ApiResponse) (maxRetries : Nat) :
    Nat → Nat → ModelOutcome × Nat
  | 0, _ => (.exhausted, 0)
  | fuel + 1, attempt =>
    if attempt < maxRetries then
      match attemptStep (resp attempt) attempt maxRetries with
      | .success t => (.success t, 1)
      | .breakModel => (.exhausted, 1)
      | .fatal e => (.fatal e, 1)
      | .retryModel =>
        let r := runModelGo resp maxRetries fuel (attempt + 1)
        (r.1, r.2 + 1)
    else (.exhausted, 0)

/-- `for (let attempt = 0; attempt < maxRetries; attempt++) { ... }`. -/
def runModel (resp : Nat → ApiResponse) (maxRetries : Nat) : ModelOutcome × Nat :=
  runModelGo resp maxRetries maxRetries 0

/-- How `callGeminiAPI` ends: a success with the winning model, a thrown
classified error, or the aggregate all-models-failed error. -/
inductive EngineResult where
  | success (text model : String)
  | fatal (e : ErrObj)
  | allFailed
deriving DecidableEq, Repr

/-- The model loop: first success returns, a thrown error propagates, a
broken-out model falls through to the next; an empty remainder is the
aggregate failure (cache invalidation and the aggregate `Error`). -/
def runModels (resps : String → Nat → ApiResponse) (maxRetries : Nat) :
    List String → EngineResult
  | [] => .allFailed
  | m :: rest =>
    match (runModel (resps m) maxRetries).1 with
    | .success t => .success t m
    | .fatal e => .fatal e
    | .exhausted => runModels resps maxRetries rest

/-- A JS optional-string argument: the empty string is falsy and acts as
absent in `model ? ... : ...` and `if (cachedModel && ...)`. -/
def jsStr : Option String → Option String
  | some s => if s = "" then none else some s
  | none => none

/-- The candidate-model list `modelsToTry` of `callGeminiAPI`:
`model ? [model] : GEMINI_MODELS`, then the (dead) prepend of the explicit
model when missing, then the prepend of the cached model when missing. -/
def modelsToTry (model0 cached0 : Option String) : List String :=
  let model := jsStr model0
  let cached := jsStr cached0
  let m0 : List String := match model with
    | some m => [m]
    | none => GEMINI_MODELS
  let m1 : List String := match model with
    | some m => if m ∈ m0 then m0 else m :: m0
    | none => m0
  match cached with
  | some c => if c ∈ m1 then m1 else c :: m1
  | none => m1

/-- `callGeminiAPI(prompt, apiKey, model?, maxRetries = 3)`: the prompt
and key only shape the oracle's requests; `cached` is what
`getCachedModel(apiKey)` returned. -/
def callGeminiAPI (resps : String → Nat → ApiResponse)
    (model cached : Option String) (maxRetries : Nat := 3) : EngineResult :=
  runModels resps maxRetries (modelsToTry model cached)

/-! ## `constructFilesContext` — the prompt context builder -/

/-- The marker `constructFilesContext` appends to a truncated file. -/
def truncMarker : String := "\n... (truncated for brevity)"

/-- The per-file rendering of content:
`content.length > 10000 ? content.substring(0, 10000) + marker : content`. -/
def renderFileContent (content : String) : String :=
  if content.length > 10000 then String.mk (content.data.take 10000) ++ truncMarker
  else content

/-- One file's block in the prompt context (header plus rendered content). -/
def renderFile (f : FileWithContent) : String :=
  "\n\n=== FILE: " ++ f.path ++ " ===\n" ++ renderFileContent f.content

/-- `array.join('\n')`. -/
def joinNewline : List String → String
  | [] => ""
  | [x] => x
  | x :: y :: xs => x ++ "\n" ++ joinNewline (y :: xs)

/-- `constructFilesContext(files)`. -/
def constructFilesContext (files : List FileWithContent) : String :=
  joinNewline (files.map renderFile)

/-! ## JSON values and `JSON.parse` -/

/-- A parsed JSON value.  A number is kept as its exact decimal value
`mantissa * 10 ^ exp10` (the IEEE rounding of `JSON.parse` is irrelevant
to every property below, which only inspects truthiness and shape). -/
inductive JsonValue where
  | null
  | bool (b : Bool)
  | num (mantissa : Int) (exp10 : Int)
  | str (s : String)
  | arr (elems : List JsonValue)
  | obj (fields : List (String × JsonValue))

/-- JavaScript truthiness of a parsed JSON value. -/
def jsTruthy : JsonValue → Bool
  | .null => false
  | .bool b => b
  | .num m _ => m ≠ 0
  | .str s => s ≠ ""
  | .arr _ => true
  | .obj _ => true

/-- Property lookup on a parsed object: `JSON.parse` keeps the last of
duplicate keys. -/
def jsonLookup (fields : List (String × JsonValue)) (k : String) : Option JsonValue :=
  fields.foldl (fun acc p => if p.1 == k then some p.2 else acc) none

/-- Property access `v[k]` on a non-null parsed value: a lookup on an
object, `undefined` on every other value (access on `null` throws and is
handled by the caller). -/
def getPropNN (v : JsonValue) (k : String) : Option JsonValue :=
  match v with
  | .obj fields => jsonLookup fields k
  | _ => none

/-- `v || dflt` for a possibly-absent property. -/
def jsOr (v : Option JsonValue) (dflt : JsonValue) : JsonValue :=
  match v with
  | some x => if jsTruthy x then x else dflt
  | none => dflt

/-- `Array.isArray(v) ? v : []` for a possibly-absent property. -/
def jsArrayOr (v : Option JsonValue) : JsonValue :=
  match v with
  | some (.arr l) => .arr l
  | _ => .arr []

/-! ### A small `JSON.parse` (strict JSON grammar) -/

/-- The backtick character (the code-fence delimiter). -/
def backtickChar : Char := Char.ofNat 96

/-- The opening-brace character. -/
def lbraceChar : Char := Char.ofNat 123

/-- The closing-brace character. -/
def rbraceChar : Char := Char.ofNat 125

/-- The whitespace `JSON.parse` skips between tokens. -/
def isJsonWs (c : Char) : Bool :=
  c == ' ' || c == '\t' || c == '\n' || c == '\r'

/-- Skip inter-token whitespace. -/
def skipJsonWs (cs : List Char) : List Char := cs.dropWhile isJsonWs

/-- The value of a hexadecimal digit. -/
def hexDigitVal (c : Char) : Option Nat :=
  if '0' ≤ c ∧ c ≤ '9' then some (c.toNat - 48)
  else if 'a' ≤ c ∧ c ≤ 'f' then some (c.toNat - 87)
  else if 'A' ≤ c ∧ c ≤ 'F' then some (c.toNat - 55)
  else none

/-- The value of a decimal digit. -/
def decDigitVal (c : Char) : Option Nat :=
  if '0' ≤ c ∧ c ≤ '9' then some (c.toNat - 48) else none

/-- The leading run of decimal digits, as digit values. -/
def takeDigits : List Char → List Nat × List Char
  | [] => ([], [])
  | c :: cs =>
    match decDigitVal c with
    | some d =>
      let r := takeDigits cs
      (d :: r.1, r.2)
    | none => ([], c :: cs)

/-- A digit list as a natural number. -/
def digitsToNat (ds : List Nat) : Nat := ds.foldl (fun acc d => acc * 10 + d) 0

/-- A JSON string body after the opening quote; rejects unescaped control
characters and bad escapes, decodes `\uXXXX` to the code point (lone
surrogates land on the `Char.ofNat` fallback, which none of the claims
inspect). -/
def parseJsonString : List Char → List Char → Option (String × List Char)
  | [], _ => none
  | '"' :: rest, acc => some (String.mk acc.reverse, rest)
  | '\\' :: e :: rest, acc =>
    if e == '"' then parseJsonString rest ('"' :: acc)
    else if e == '\\' then parseJsonString rest ('\\' :: acc)
    else if e == '/' then parseJsonString rest ('/' :: acc)
    else if e == 'b' then parseJsonString rest (Char.ofNat 8 :: acc)
    else if e == 'f' then parseJsonString rest (Char.ofNat 12 :: acc)
    else if e == 'n' then parseJsonString rest ('\n' :: acc)
    else if e == 'r' then parseJsonString rest ('\r' :: acc)
    else if e == 't' then parseJsonString rest ('\t' :: acc)
    else if e == 'u' then
      match rest with
      | h1 :: h2 :: h3 :: h4 :: rest2 =>
        match hexDigitVal h1, hexDigitVal h2, hexDigitVal h3, hexDigitVal h4 with
        | some a, some b, some c, some d =>
          parseJsonString rest2 (Char.ofNat (((a * 16 + b) * 16 + c) * 16 + d) :: acc)
        | _, _, _, _ => none
      | _ => none
    else none
  | ['\\'], _ => none
  | c :: rest, acc => if c.toNat < 32 then none else parseJsonString rest (c :: acc)

/-- The exponent part of a JSON number, after the `e`/`E`. -/
def parseJsonExponent (cs : List Char) : Option (Int × List Char) :=
  let sign : Int × List Char :=
    match cs with
    | '-' :: rest => (-1, rest)
    | '+' :: rest => (1, rest)
    | _ => (1, cs)
  match takeDigits sign.2 with
  | ([], _) => none
  | (ds, rest) => some (sign.1 * (digitsToNat ds : Int), rest)

/-- A JSON number at the head of the input, as `(mantissa, exp10, rest)`.
Grammar: `-? (0 | [1-9][0-9]*) (\.[0-9]+)? ([eE][+-]?[0-9]+)?`. -/
def parseJsonNumber (cs : List Char) : Option ((Int × Int) × List Char) :=
  let sign : Int × List Char :=
    match cs with
    | '-' :: rest => (-1, rest)
    | _ => (1, cs)
  match takeDigits sign.2 with
  | ([], _) => none
  | (d :: ds, rest1) =>
    if d = 0 ∧ ds ≠ [] then none
    else
      let intPart : Nat := digitsToNat (d :: ds)
      let afterFrac : Option (Nat × Int × List Char) :=
        match rest1 with
        | '.' :: rest2 =>
          match takeDigits rest2 with
          | ([], _) => none
          | (fs, rest3) =>
            some (intPart * 10 ^ fs.length + digitsToNat fs, -(fs.length : Int), rest3)
        | _ => some (intPart, 0, rest1)
      match afterFrac with
      | none => none
      | some (mant, fexp, rest3) =>
        match rest3 with
        | 'e' :: rest4 =>
          match parseJsonExponent rest4 with
          | none => none
          | some (e, rest5) => some ((sign.1 * (mant : Int), fexp + e), rest5)
        | 'E' :: rest4 =>
          match parseJsonExponent rest4 with
          | none => none
          | some (e, rest5) => some ((sign.1 * (mant : Int), fexp + e), rest5)
        | _ => some ((sign.1 * (mant : Int), fexp), rest3)

mutual

/-- A JSON value at the head of the input (fuel-bounded recursion; the
fuel chosen by `parseJson` always suffices). -/
def parseJsonValue : Nat → List Char → Option (JsonValue × List Char)
  | 0, _ => none
  | fuel + 1, cs =>
    match skipJsonWs cs with
    | [] => none
    | c :: rest =>
      if c == 'n' then
        match rest with
        | 'u' :: 'l' :: 'l' :: rest2 => some (.null, rest2)
        | _ => none
      else if c == 't' then
        match rest with
        | 'r' :: 'u' :: 'e' :: rest2 => some (.bool true, rest2)
        | _ => none
      else if c == 'f' then
        match rest with
        | 'a' :: 'l' :: 's' :: 'e' :: rest2 => some (.bool false, rest2)
        | _ => none
      else if c == '"' then
        match parseJsonString rest [] with
        | some (s, rest2) => some (.str s, rest2)
        | none => none
      else if c == lbraceChar then
        match skipJsonWs rest with
        | c2 :: rest2 =>
          if c2 == rbraceChar then some (.obj [], rest2)
          else parseJsonMembers fuel (c2 :: rest2) []
        | [] => none
      else if c == '[' then
        match skipJsonWs rest with
        | c2 :: rest2 =>
          if c2 == ']' then some (.arr [], rest2)
          else parseJsonElements fuel (c2 :: rest2) []
        | [] => none
      else
        match parseJsonNumber (c :: rest) with
        | some ((m, e), rest2) => some (.num m e, rest2)
        | none => none

/-- The members of an object, after `{` and at least one member. -/
def parseJsonMembers : Nat → List Char → List (String × JsonValue) →
    Option (JsonValue × List Char)
  | 0, _, _ => none
  | fuel + 1, cs, acc =>
    match skipJsonWs cs with
    | '"' :: rest =>
      match parseJsonString rest [] with
      | none => none
      | some (k, rest2) =>
        match skipJsonWs rest2 with
        | ':' :: rest3 =>
          match parseJsonValue fuel rest3 with
          | none => none
          | some (v, rest4) =>
            match skipJsonWs rest4 with
            | ',' :: rest5 => parseJsonMembers fuel rest5 ((k, v) :: acc)
            | c :: rest5 =>
              if c == rbraceChar then some (.obj ((k, v) :: acc).reverse, rest5)
              else none
            | [] => none
        | _ => none
    | _ => none

/-- The elements of an array, after `[` and at least one element. -/
def parseJsonElements : Nat → List Char → List JsonValue →
    Option (JsonValue × List Char)
  | 0, _, _ => none
  | fuel + 1, cs, acc =>
    match parseJsonValue fuel cs with
    | none => none
    | some (v, rest) =>
      match skipJsonWs rest with
      | ',' :: rest2 => parseJsonElements fuel rest2 (v :: acc)
      | ']' :: rest2 => some (.arr (v :: acc).reverse, rest2)
      | _ => none

end

/-- `JSON.parse(s)`: one value, surrounded only by whitespace. -/
def parseJson (s : String) : Option JsonValue :=
  match parseJsonValue (2 * s.data.length + 4) s.data with
  | none => none
  | some (v, rest) => if (skipJsonWs rest).isEmpty then some v else none

/-! ## `extractJSON` — the response extractor -/

/-- The opening fence of the first regex alternative (three backticks and
the word `json`). -/
def fenceOpen : List Char :=
  [backtickChar, backtickChar, backtickChar] ++ "json".data

/-- A closing fence (three backticks). -/
def fenceClose : List Char := [backtickChar, backtickChar, backtickChar]

/-- Split around the first occurrence of `pat`:
`some (before, after)` or `none` when `pat` does not occur. -/
def splitAtSub (pat : List Char) : List Char → Option (List Char × List Char)
  | [] => if pat.isEmpty then some ([], []) else none
  | c :: cs =>
    if listPrefixOf pat (c :: cs) then some ([], (c :: cs).drop pat.length)
    else
      match splitAtSub pat cs with
      | some (pre, post) => some (c :: pre, post)
      | none => none

/-- The characters of the regex class `\s` (the ASCII part; the source's
fenced blocks only ever carry these). -/
def isJsWs (c : Char) : Bool :=
  c == ' ' || c == '\t' || c == '\n' || c == '\r'
  || c == Char.ofNat 11 || c == Char.ofNat 12

/-- Trim `\s*` from both ends. -/
def trimWsL (cs : List Char) : List Char :=
  ((cs.dropWhile isJsWs).reverse.dropWhile isJsWs).reverse

/-- The first regex of `extractJSON`,
`` /```json\s*([\s\S]*?)\s*```/ ``: the text between the first `` ```json ``
and the next `` ``` ``, trimmed; the source then takes
`jsonMatch[1] || jsonMatch[0]`, so an empty captured group falls back to
the whole match. -/
def findFenced (cs : List Char) : Option (List Char) :=
  match splitAtSub fenceOpen cs with
  | none => none
  | some (_, rest) =>
    match splitAtSub fenceClose rest with
    | none => none
    | some (inner, _) =>
      let g := trimWsL inner
      if g.isEmpty then some (fenceOpen ++ inner ++ fenceClose)
      else some g

/-- The input up to and including its last occurrence of `c`. -/
def takeUpToLast (c : Char) (l : List Char) : Option (List Char) :=
  match l.reverse.dropWhile (fun x => x ≠ c) with
  | [] => none
  | x :: xs => some ((x :: xs).reverse)

/-- The second regex of `extractJSON`, `/\{[\s\S]*\}/`: from the first
opening brace that is followed by a closing brace, greedily to the last
closing brace. -/
def braceSpan (cs : List Char) : Option (List Char) :=
  match splitAtSub [lbraceChar] cs with
  | none => none
  | some (_, rest) =>
    match takeUpToLast rbraceChar rest with
    | none => none
    | some inner => some (lbraceChar :: inner)

/-- `extractJSON(text)`: locate a candidate span (fenced block first, then
brace span), then `JSON.parse` it.  Throws — modelled as `Except.error` —
with the source's message when no span is found, and with the parse
failure message (the source appends the parser's own detail) when the
span is not valid JSON. -/
def extractJSON (text : String) : Except String JsonValue :=
  match (match findFenced text.data with
         | some g => some g
         | none => braceSpan text.data) with
  | none => .error "No JSON found in Gemini response"
  | some jsonStr =>
    match parseJson (String.mk jsonStr) with
    | some v => .ok v
    | none => .error "Failed to parse JSON from Gemini response"

/-! ## `analyzeCodebase` — the result mapping -/

/-- `AnalysisResult` as the source builds it at runtime: field values are
whatever the parsed response held (the TypeScript annotations promise
strings and string arrays but do not check them), with the placeholder
defaults of `analyzeCodebase`. -/
structure AnalysisResultJ where
  projectOverview : JsonValue
  prerequisites : JsonValue
  setupSteps : JsonValue
  runningInstructions : JsonValue
  configuration : JsonValue
  troubleshooting : JsonValue
  osSpecificNotes : Option JsonValue

/-- The result-shaping of `analyzeCodebase` on the parsed response:
`result.f || placeholder` for the string fields,
`Array.isArray(result.f) ? result.f : []` for the list fields.  Property
access on a parsed `null` throws a `TypeError` (the `Except.error`),
which the surrounding catch turns into the generic failure. -/
def buildAnalysisResult (r : JsonValue) : AnalysisResultJ :=
  { projectOverview :=
      jsOr (getPropNN r "projectOverview") (JsonValue.str "No overview provided")
    prerequisites := jsArrayOr (getPropNN r "prerequisites")
    setupSteps := jsArrayOr (getPropNN r "setupSteps")
    runningInstructions :=
      jsOr (getPropNN r "runningInstructions")
        (JsonValue.str "No running instructions provided")
    configuration :=
      jsOr (getPropNN r "configuration")
        (JsonValue.str "No configuration details provided")
    troubleshooting :=
      jsOr (getPropNN r "troubleshooting")
        (JsonValue.str "No troubleshooting information provided")
    osSpecificNotes := getPropNN r "osSpecificNotes" }

/-- The same mapping with the one throwing case split off: property access
on a parsed `null` throws the `TypeError` (the `Except.error`). -/
def mkAnalysisResult (result : JsonValue) : Except Unit AnalysisResultJ :=
  match result with
  | .null => .error ()
  | r => .ok (buildAnalysisResult r)

/-- The `try { extractJSON ... return {...} } catch { throw new Error( ... ) }`
tail of `analyzeCodebase`: any extraction or mapping failure is replaced
by the one generic error before it reaches the caller. -/
def analyzeCodebaseParse (response : String) : Except String AnalysisResultJ :=
  match extractJSON response with
  | .error _ => .error "Failed to parse Gemini API response. Please try again."
  | .ok v =>
    match mkAnalysisResult v with
    | .ok r => .ok r
    | .error _ => .error "Failed to parse Gemini API response. Please try again."

/-! ## Concrete inputs used by the witnesses and counterexamples -/

/-- A small root-level documentation file (gets selected by the selector). -/
def readmeItem : GitHubTreeItem :=
  { path := "README.md", mode := "100644", type := "blob", sha := "abc123",
    size := some 100, url := "u" }

/-- The parsed body of a real credential-rejection response from the model
service (HTTP 401). -/
def invalidKeyData : ErrorData :=
  { error := some { code := some 401, message := some "API key not valid.",
                    status := some "UNAUTHENTICATED" } }

/-- An ok response whose only candidate finished for a reason other than
`STOP` (here `MAX_TOKENS`) but still carries non-empty text. -/
def maxTokensData : ResponseData :=
  ⟨[{ finishReason := some "MAX_TOKENS", content := some (some "hello") }]⟩

/-- An ok response whose only candidate was blocked by the safety filter. -/
def safetyData : ResponseData :=
  ⟨[{ finishReason := some "SAFETY", content := some (some "text") }]⟩

/-- A file content one character over the 10000-character ceiling. -/
def bigContent : String := String.mk (List.replicate 10001 'a')

/-- The tree entry whose fetch yields `bigContent`. -/
def bigFile : GitHubTreeItem :=
  { path := "big.txt", mode := "100644", type := "blob", sha := "s",
    size := some 10001, url := "u" }

/-- What `analyzeCodebase`'s result mapping produces from the empty parsed
object: every placeholder. -/
def emptyObjResult : AnalysisResultJ :=
  { projectOverview := JsonValue.str "No overview provided"
    prerequisites := JsonValue.arr []
    setupSteps := JsonValue.arr []
    runningInstructions := JsonValue.str "No running instructions provided"
    configuration := JsonValue.str "No configuration details provided"
    troubleshooting := JsonValue.str "No troubleshooting information provided"
    osSpecificNotes := none }

/-- Modelled from the spec's words for claim C2, for comparison with the
source's `modelsToTry`: "explicit requested model, if any; then a
persisted last-known-working model for this credential, if cached; then a
fixed fallback ordering of models". -/
def claimedModelOrder (model cached : Option String) : List String :=
  (match model with | some m => [m] | none => [])
  ++ (match cached with | some c => [c] | none => [])
  ++ GEMINI_MODELS

/-! # Theorems

First the shared lemmas, then one theorem (plus witness or
counterexample) per claim. -/

/-! ## Selector lemmas -/

/-- Inversion of the scoring-loop body: a scored entry comes from a tree
entry with a known non-zero size that is neither binary nor minified, and
carries that entry and its estimated token cost. -/
theorem scoreEntry_inv (g : GitHubTreeItem) (sf : FileScore)
    (h : scoreEntry g = some sf) :
    sf.file = g ∧ sf.estimatedTokens = tokensOf g ∧ g.size ≠ none ∧
    g.size ≠ some 0 ∧ isBinaryFile g.path g.size = false ∧
    isMinifiedFile g.path = false := by
  unfold scoreEntry at h
  cases hs : g.size with
  | none => rw [hs] at h; exact absurd h (by simp)
  | some sz =>
    rw [hs] at h
    dsimp only at h
    by_cases h0 : sz = 0
    · simp [h0] at h
    · rw [if_neg h0] at h
      by_cases hb : isBinaryFile g.path g.size
      · rw [hs] at hb; rw [if_pos hb] at h; exact absurd h (by simp)
      · rw [hs] at hb; rw [if_neg hb] at h
        by_cases hm : isMinifiedFile g.path
        · rw [if_pos hm] at h; exact absurd h (by simp)
        · rw [if_neg hm] at h
          have hsf : sf = { file := g, score := mkScoreVal g.path sz,
                            estimatedTokens := estimateTokens sz } :=
            (Option.some.injEq _ _ ▸ h).symm
          subst hsf
          refine ⟨rfl, by simp [tokensOf, hs], by simp, by simp [h0],
            Bool.eq_false_iff.mpr hb, Bool.eq_false_iff.mpr hm⟩

/-- Membership through the stable insertion. -/
theorem mem_insertScored (a x : FileScore) :
    ∀ l, x ∈ insertScored a l ↔ x = a ∨ x ∈ l := by
  intro l
  induction l with
  | nil => simp [insertScored]
  | cons y ys ih =>
    simp only [insertScored]
    split
    · simp [List.mem_cons]
    · simp only [List.mem_cons, ih]
      tauto

/-- The sort permutes: membership is preserved. -/
theorem mem_sortScored (x : FileScore) : ∀ l, x ∈ sortScored l ↔ x ∈ l := by
  intro l
  induction l with
  | nil => simp [sortScored]
  | cons y ys ih => simp [sortScored, mem_insertScored, ih]

/-- Everything the greedy walk returns was already selected or stems from
the scored list. -/
theorem greedy_mem (maxTokens : Nat) :
    ∀ (l : List FileScore) (selected : List GitHubTreeItem) (currentTokens : Nat)
      (x : GitHubTreeItem), x ∈ greedy maxTokens l selected currentTokens →
      x ∈ selected ∨ ∃ sf, sf ∈ l ∧ x = sf.file := by
  intro l
  induction l with
  | nil => intro sel cur x h; exact Or.inl h
  | cons sf rest ih =>
    intro sel cur x h
    unfold greedy at h
    split at h
    · rcases ih sel cur x h with h1 | ⟨sg, hg, hx⟩
      · exact Or.inl h1
      · exact Or.inr ⟨sg, List.mem_cons_of_mem _ hg, hx⟩
    · rcases ih (sel ++ [sf.file]) _ x h with h1 | ⟨sg, hg, hx⟩
      · rcases List.mem_append.mp h1 with h2 | h2
        · exact Or.inl h2
        · exact Or.inr ⟨sf, List.mem_cons_self _ _, (List.mem_singleton.mp h2)⟩
      · exact Or.inr ⟨sg, List.mem_cons_of_mem _ hg, hx⟩

/-- Appending one file to the selection adds its token cost. -/
theorem tokenSum_append (sel : List GitHubTreeItem) (f : GitHubTreeItem) :
    tokenSum (sel ++ [f]) = tokenSum sel + tokensOf f := by
  simp [tokenSum]

/-- The greedy walk's invariant: when the running total is the selection's
token sum and within the budget, the final selection's token sum stays
within the budget. -/
theorem greedy_tokenSum (maxTokens : Nat) :
    ∀ (l : List FileScore) (selected : List GitHubTreeItem) (currentTokens : Nat),
      (∀ sf ∈ l, sf.estimatedTokens = tokensOf sf.file) →
      tokenSum selected = currentTokens → currentTokens ≤ maxTokens →
      tokenSum (greedy maxTokens l selected currentTokens) ≤ maxTokens := by
  intro l
  induction l with
  | nil => intro sel cur _ hsum hle; unfold greedy; rw [hsum]; exact hle
  | cons sf rest ih =>
    intro sel cur hconsistent hsum hle
    unfold greedy
    split
    · exact ih sel cur (fun g hg => hconsistent g (List.mem_cons_of_mem _ hg)) hsum hle
    · rename_i hnot
      have hest : sf.estimatedTokens = tokensOf sf.file :=
        hconsistent sf (List.mem_cons_self _ _)
      refine ih (sel ++ [sf.file]) (cur + sf.estimatedTokens)
        (fun g hg => hconsistent g (List.mem_cons_of_mem _ hg)) ?_ ?_
      · rw [tokenSum_append, hsum, hest]
      · omega

/-- Scored entries carry a consistent estimated token cost. -/
theorem sorted_est_consistent (tree : List GitHubTreeItem) :
    ∀ sf ∈ sortScored (scoreTree tree), sf.estimatedTokens = tokensOf sf.file := by
  intro sf hsf
  rw [mem_sortScored] at hsf
  obtain ⟨g, _, hfg⟩ := List.mem_filterMap.mp hsf
  obtain ⟨h1, h2, _⟩ := scoreEntry_inv g sf hfg
  rw [h2, h1]

/-- Inversion for selected files: each came through the scoring filter. -/
theorem mem_selectFiles_inv (tree : List GitHubTreeItem) (maxTokens : Nat)
    (f : GitHubTreeItem) (h : f ∈ selectFiles tree maxTokens) :
    f.size ≠ none ∧ f.size ≠ some 0 ∧ isBinaryFile f.path f.size = false ∧
    isMinifiedFile f.path = false := by
  unfold selectFiles at h
  rcases greedy_mem maxTokens _ [] 0 f h with h0 | ⟨sf, hsf, hx⟩
  · exact absurd h0 (List.not_mem_nil f)
  · rw [mem_sortScored] at hsf
    obtain ⟨g, _, hfg⟩ := List.mem_filterMap.mp hsf
    obtain ⟨h1, _, h3, h4, h5, h6⟩ := scoreEntry_inv g sf hfg
    rw [hx, h1]
    exact ⟨h3, h4, h5, h6⟩

/-! ## Claim C1 -/

/-- C1: for every input tree and every token budget, the sum of the
estimated token costs of the files returned by `selectFiles` is at most
the budget. -/
theorem selectFiles_within_budget (tree : List GitHubTreeItem) (maxTokens : Nat) :
    tokenSum (selectFiles tree maxTokens) ≤ maxTokens := by
  unfold selectFiles
  exact greedy_tokenSum maxTokens _ [] 0 (sorted_est_consistent tree) rfl (Nat.zero_le _)

/-! ## Claim C5 -/

/-- C5: `selectFiles` never returns a file with an absent size, a file
classified binary, or a file classified minified. -/
theorem selectFiles_excludes_binary_minified_unknown (tree : List GitHubTreeItem)
    (maxTokens : Nat) (f : GitHubTreeItem) (h : f ∈ selectFiles tree maxTokens) :
    f.size ≠ none ∧ isBinaryFile f.path f.size = false ∧
    isMinifiedFile f.path = false := by
  obtain ⟨h1, _, h3, h4⟩ := mem_selectFiles_inv tree maxTokens f h
  exact ⟨h1, h3, h4⟩

/-- Witness for C5 at a concrete selected file. -/
theorem selectFiles_excludes_witness :
    readmeItem ∈ selectFiles [readmeItem] 1000 ∧
    (readmeItem.size ≠ none ∧ isBinaryFile readmeItem.path readmeItem.size = false ∧
     isMinifiedFile readmeItem.path = false) :=
  ⟨by decide, selectFiles_excludes_binary_minified_unknown [readmeItem] 1000 readmeItem (by decide)⟩

/-! ## Claim C10 -/

/-- C10: `selectFiles` also excludes every file whose recorded size is
exactly 0, for every tree and budget. -/
theorem selectFiles_excludes_zero_size (tree : List GitHubTreeItem)
    (maxTokens : Nat) (f : GitHubTreeItem) (h : f ∈ selectFiles tree maxTokens) :
    f.size ≠ some 0 :=
  (mem_selectFiles_inv tree maxTokens f h).2.1

/-- Witness for C10 at a concrete selected file. -/
theorem selectFiles_excludes_zero_size_witness :
    readmeItem ∈ selectFiles [readmeItem] 1000 ∧ readmeItem.size ≠ some 0 :=
  ⟨by decide, selectFiles_excludes_zero_size [readmeItem] 1000 readmeItem (by decide)⟩

/-! ## Fetcher lemmas -/

/-- Concatenating the batches gives back the file list. -/
theorem chunkListGo_flatten {α : Type} (b : Nat) (hb : 0 < b) :
    ∀ (fuel : Nat) (l : List α), l.length ≤ fuel →
      (chunkListGo b fuel l).flatten = l := by
  intro fuel
  induction fuel with
  | zero =>
    intro l hl
    have : l = [] := List.eq_nil_of_length_eq_zero (Nat.le_zero.mp hl)
    simp [this, chunkListGo]
  | succ n ih =>
    intro l hl
    match l with
    | [] => simp [chunkListGo]
    | x :: xs =>
      show ((x :: xs).take b :: chunkListGo b n ((x :: xs).drop b)).flatten = x :: xs
      rw [List.flatten_cons, ih ((x :: xs).drop b) ?_, List.take_append_drop]
      have hlen : ((x :: xs).drop b).length = (x :: xs).length - b := List.length_drop b _
      simp only [List.length_cons] at hl hlen
      omega

/-- The batch fold accumulates the per-batch filters. -/
theorem foldl_append_filterMap {α β : Type} (g : α → Option β) :
    ∀ (bs : List (List α)) (acc : List β),
      bs.foldl (fun r batch => r ++ batch.filterMap g) acc
        = acc ++ bs.flatten.filterMap g := by
  intro bs
  induction bs with
  | nil => intro acc; simp
  | cons b rest ih =>
    intro acc
    simp [List.foldl_cons, ih, List.filterMap_append]

/-- `fetchFileContents` is the per-file filter of the whole list: the
batching is invisible in the result. -/
theorem fetchFileContents_eq (files : List GitHubTreeItem)
    (fetch : GitHubTreeItem → FetchOutcome) :
    fetchFileContents files fetch = files.filterMap (fetchOne fetch) := by
  unfold fetchFileContents chunkList
  rw [foldl_append_filterMap, chunkListGo_flatten 50 (by decide) files.length files (le_refl _)]
  simp

/-- Counting kept results equals counting successful fetches. -/
theorem filterMap_fetchOne_length (fetch : GitHubTreeItem → FetchOutcome) :
    ∀ files : List GitHubTreeItem,
      (files.filterMap (fetchOne fetch)).length
        = (files.filter (fun f => isFetchOk (fetch f))).length := by
  intro files
  induction files with
  | nil => rfl
  | cons f fs ih =>
    simp only [List.filterMap_cons, List.filter_cons]
    cases hf : fetch f <;> simp [fetchOne, isFetchOk, hf, ih]

/-! ## Claim C6 -/

/-- C6: every failed fetch is dropped from the result (the result is the
per-file filter of the input, so one file's failure never disturbs the
others and the function is total — it cannot throw), and the result's size
equals the number of successfully fetched files. -/
theorem fetchFileContents_partial_failure (files : List GitHubTreeItem)
    (fetch : GitHubTreeItem → FetchOutcome) :
    fetchFileContents files fetch = files.filterMap (fetchOne fetch) ∧
    (fetchFileContents files fetch).length
      = (files.filter (fun f => isFetchOk (fetch f))).length := by
  refine ⟨fetchFileContents_eq files fetch, ?_⟩
  rw [fetchFileContents_eq files fetch]
  exact filterMap_fetchOne_length fetch files

/-! ## Claim C7 -/

/-- C7 counterexample: a fetched file keeps its full content, so its
length can exceed the 10000-character truncation ceiling — fetching does
not truncate. -/
theorem fetched_content_exceeds_ceiling :
    fetchFileContents [bigFile] (fun _ => FetchOutcome.ok bigContent)
      = [{ bigFile with content := bigContent }] ∧
    bigContent.length = 10001 ∧ 10000 < bigContent.length := by
  have h1 : bigContent.length = (List.replicate 10001 'a').length := rfl
  have h2 : bigContent.length = 10001 := by rw [h1, List.length_replicate]
  exact ⟨rfl, h2, by omega⟩

/-- C7 (amended): truncation happens when a file is rendered into the
prompt context, where the rendered content is at most the 10000-character
ceiling plus the fixed truncation marker. -/
theorem renderFileContent_bounded (content : String) :
    (renderFileContent content).length ≤ 10000 + truncMarker.length := by
  unfold renderFileContent
  split
  · have h1 : (String.mk (content.data.take 10000) ++ truncMarker).length
        = (content.data.take 10000).length + truncMarker.length := by
      rw [String.length_append]; rfl
    rw [h1]
    have h2 : (content.data.take 10000).length ≤ 10000 := by
      rw [List.length_take]; omega
    omega
  · rename_i hle
    have : content.length ≤ 10000 := by omega
    omega

/-! ## Engine lemmas -/

/-- The attempt loop makes at most `fuel` iterations. -/
theorem runModelGo_count_le (resp : Nat → ApiResponse) (maxRetries : Nat) :
    ∀ (fuel attempt : Nat), (runModelGo resp maxRetries fuel attempt).2 ≤ fuel := by
  intro fuel
  induction fuel with
  | zero => intro a; simp [runModelGo]
  | succ n ih =>
    intro a
    unfold runModelGo
    split
    · cases h : attemptStep (resp a) a maxRetries <;> simp [h]
      exact ih (a + 1)
    · simp

/-- The attempt loop for one model makes at most `maxRetries` attempts. -/
theorem runModel_count_le (resp : Nat → ApiResponse) (maxRetries : Nat) :
    (runModel resp maxRetries).2 ≤ maxRetries :=
  runModelGo_count_le resp maxRetries maxRetries 0

/-- The catch block never produces a success. -/
theorem catchHandler_ne_success (e : ErrObj) (attempt maxRetries : Nat) (t : String) :
    catchHandler e attempt maxRetries ≠ AttemptOutcome.success t := by
  unfold catchHandler
  split
  · simp
  · split
    · simp
    · split
      · simp
      · split <;> simp

/-- The non-ok branch never produces a success. -/
theorem tryHttpError_ne_success (status : Nat) (errorData : ErrorData)
    (errorText : String) (attempt maxRetries : Nat) (t : String) :
    tryHttpError status errorData errorText attempt maxRetries
      ≠ AttemptOutcome.success t := by
  unfold tryHttpError
  dsimp only
  split
  · exact catchHandler_ne_success _ _ _ _
  · split
    · simp
    · split
      · simp
      · split
        · split <;> simp
        · exact catchHandler_ne_success _ _ _ _

/-! ## Claim C2 -/

/-- C2 counterexample: with an explicitly requested model and a different
cached model, the engine tries the cached model before the requested one
and never consults the fallback list, so the candidate order is not the
one the claim states. -/
theorem modelsToTry_order_counterexample :
    modelsToTry (some "m") (some "c") = ["c", "m"] ∧
    claimedModelOrder (some "m") (some "c") = ["m", "c"] ++ GEMINI_MODELS ∧
    modelsToTry (some "m") (some "c") ≠ claimedModelOrder (some "m") (some "c") :=
  ⟨rfl, rfl, by decide⟩

/-- C2 (amended): the candidate order actually built by `callGeminiAPI` —
with an explicit model the list is the cached model (if any and different)
followed by the explicit model only, the fallback list unused; without one
it is the cached model (if any and not already a fallback) followed by the
fixed fallback list; and each candidate model gets at most 3 attempts by
default. -/
theorem modelsToTry_characterization :
    (∀ m c : String, m ≠ "" → c ≠ "" →
        modelsToTry (some m) (some c) = if c = m then [m] else [c, m]) ∧
    (∀ m : String, m ≠ "" → modelsToTry (some m) none = [m]) ∧
    (∀ c : String, c ≠ "" →
        modelsToTry none (some c)
          = if c ∈ GEMINI_MODELS then GEMINI_MODELS else c :: GEMINI_MODELS) ∧
    modelsToTry none none = GEMINI_MODELS ∧
    (∀ resp : Nat → ApiResponse, (runModel resp 3).2 ≤ 3) := by
  refine ⟨?_, ?_, ?_, rfl, fun resp => runModel_count_le resp 3⟩
  · intro m c hm hc
    by_cases hcm : c = m
    · subst hcm; simp [modelsToTry, jsStr, hm, hc]
    · simp [modelsToTry, jsStr, hm, hc, hcm]
  · intro m hm
    simp [modelsToTry, jsStr, hm]
  · intro c hc
    by_cases hmem : c ∈ GEMINI_MODELS
    · simp [modelsToTry, jsStr, hc, hmem]
    · simp [modelsToTry, jsStr, hc, hmem]

/-! ## Claim C3 -/

/-- C3 counterexample: a response whose only candidate has finish reason
`MAX_TOKENS` (not `STOP`) and non-empty text makes `callGeminiAPI` return
success, so a non-stop finish reason does not always fail the attempt. -/
theorem nonStop_reason_still_succeeds :
    callGeminiAPI (fun _ _ => ApiResponse.ok maxTokensData) none none 3
      = EngineResult.success "hello" "gemini-3.0-flash" ∧
    maxTokensData.candidates.map Candidate.finishReason = [some "MAX_TOKENS"] ∧
    (some "MAX_TOKENS" : Option String) ≠ some "STOP" :=
  ⟨rfl, rfl, by decide⟩

/-- C3 (amended): an attempt succeeds only with a non-empty candidate list
and non-empty extracted text; finish reasons `SAFETY` and `RECITATION`
fail the attempt, and such a failure makes the engine move to the next
model after a single attempt (no retry).  Any other non-stop finish reason
is only logged and can still succeed. -/
theorem attemptStep_success_conditions :
    (∀ (r : ApiResponse) (attempt maxRetries : Nat) (t : String),
        attemptStep r attempt maxRetries = AttemptOutcome.success t →
        ∃ d c rest, r = ApiResponse.ok d ∧ d.candidates = c :: rest ∧
          c.content = some (some t) ∧ t ≠ "") ∧
    (∀ (d : ResponseData) (c : Candidate) (rest : List Candidate)
        (attempt maxRetries : Nat),
        d.candidates = c :: rest →
        (c.finishReason = some "SAFETY" ∨ c.finishReason = some "RECITATION") →
        attemptStep (ApiResponse.ok d) attempt maxRetries
          = AttemptOutcome.breakModel) ∧
    (∀ (resps : String → Nat → ApiResponse) (maxRetries : Nat) (m : String)
        (rest : List String),
        0 < maxRetries →
        attemptStep (resps m 0) 0 maxRetries = AttemptOutcome.breakModel →
        runModels resps maxRetries (m :: rest) = runModels resps maxRetries rest ∧
        (runModel (resps m) maxRetries).2 = 1) := by
  refine ⟨?_, ?_, ?_⟩
  · intro r attempt maxRetries t h
    match r with
    | .httpError st ed et => exact absurd h (tryHttpError_ne_success st ed et _ _ t)
    | .netExn e => exact absurd h (catchHandler_ne_success e _ _ t)
    | .ok d =>
      unfold attemptStep tryOk at h
      dsimp only at h
      cases hd : d.candidates with
      | nil => rw [hd] at h; simp at h
      | cons c cs =>
        rw [hd] at h
        dsimp only at h
        by_cases hb : breaksOnFinish c.finishReason
        · rw [if_pos hb] at h; simp at h
        · rw [if_neg hb] at h
          cases hcc : c.content with
          | none => rw [hcc] at h; exact absurd h (catchHandler_ne_success _ _ _ t)
          | some o =>
            cases o with
            | none => rw [hcc] at h; simp at h
            | some s =>
              rw [hcc] at h
              dsimp only at h
              by_cases hs : s = ""
              · rw [if_pos hs] at h; simp at h
              · rw [if_neg hs] at h
                have hst : s = t := by simpa using h
                exact ⟨d, c, cs, rfl, hd, by rw [hcc, hst],
                  fun he => hs (hst.trans he)⟩
  · intro d c rest attempt maxRetries hd hfr
    have hb : breaksOnFinish c.finishReason = true := by
      rcases hfr with h | h <;> rw [h] <;> decide
    unfold attemptStep tryOk
    dsimp only
    rw [hd]
    dsimp only
    rw [if_pos hb]
  · intro resps maxRetries m rest hpos hstep
    have hrm : runModel (resps m) maxRetries = (ModelOutcome.exhausted, 1) := by
      unfold runModel
      cases maxRetries with
      | zero => omega
      | succ k =>
        unfold runModelGo
        rw [if_pos (Nat.succ_pos k), hstep]
    constructor
    · simp only [runModels, hrm]
    · rw [hrm]

/-! ## Claim C4 -/

/-- C4: the code slip behind the invalid-credential abort.  On a real
credential-rejection response (HTTP 401, structured payload), the
classifier `isInvalidApiKeyError` reads the constructed `Error`'s own
`error` property — which the source never sets (the payload lives in
`geminiError`) — so it returns `false`; the engine therefore retries the
model to exhaustion (3 attempts) and then falls through every other
model, ending in the aggregate all-models-failed error instead of the
immediate abort. -/
theorem invalid_key_response_not_aborted :
    isInvalidApiKeyError (mkHttpError 401 invalidKeyData "") = false ∧
    (runModel (fun _ => ApiResponse.httpError 401 invalidKeyData "") 3).2 = 3 ∧
    callGeminiAPI (fun _ _ => ApiResponse.httpError 401 invalidKeyData "") none none 3
      = EngineResult.allFailed :=
  ⟨rfl, rfl, rfl⟩

/-! ## Result-mapping lemmas -/

/-- `v || dflt` is truthy whenever the default is. -/
theorem jsOr_truthy (o : Option JsonValue) (d : JsonValue)
    (hd : jsTruthy d = true) : jsTruthy (jsOr o d) = true := by
  cases o with
  | none => simpa [jsOr]
  | some x =>
    by_cases hx : jsTruthy x <;> simp [jsOr, hx, hd]

/-- A truthy value is not the empty string. -/
theorem truthy_ne_emptyStr (x : JsonValue) (h : jsTruthy x = true) :
    x ≠ JsonValue.str "" := by
  intro he
  subst he
  simp [jsTruthy] at h

/-- A truthy value is not `null`. -/
theorem truthy_ne_null (x : JsonValue) (h : jsTruthy x = true) :
    x ≠ JsonValue.null := by
  intro he
  subst he
  simp [jsTruthy] at h

/-- `Array.isArray(v) ? v : []` is always an array. -/
theorem jsArrayOr_isArr (o : Option JsonValue) :
    ∃ l, jsArrayOr o = JsonValue.arr l := by
  cases o with
  | none => exact ⟨[], rfl⟩
  | some x => cases x <;> first | exact ⟨[], rfl⟩ | exact ⟨_, rfl⟩

/-- Every field of the built result is well-shaped, whatever the parsed
response held. -/
theorem buildAnalysisResult_fields (x : JsonValue) :
    jsTruthy (buildAnalysisResult x).projectOverview = true ∧
    jsTruthy (buildAnalysisResult x).runningInstructions = true ∧
    jsTruthy (buildAnalysisResult x).configuration = true ∧
    jsTruthy (buildAnalysisResult x).troubleshooting = true ∧
    (∃ l, (buildAnalysisResult x).prerequisites = JsonValue.arr l) ∧
    (∃ l, (buildAnalysisResult x).setupSteps = JsonValue.arr l) := by
  refine ⟨jsOr_truthy _ _ (by decide), jsOr_truthy _ _ (by decide),
    jsOr_truthy _ _ (by decide), jsOr_truthy _ _ (by decide),
    jsArrayOr_isArr _, jsArrayOr_isArr _⟩

/-! ## Claim C8 -/

/-- C8: whenever `analyzeCodebase`'s mapping of the parsed response
returns a result, all four required string fields are truthy — in
particular neither empty strings nor null (a placeholder replaced every
missing or falsy upstream value) — and both list fields are arrays. -/
theorem analysisResult_fields_total (v : JsonValue) (r : AnalysisResultJ)
    (h : mkAnalysisResult v = Except.ok r) :
    (jsTruthy r.projectOverview = true ∧ r.projectOverview ≠ JsonValue.str "" ∧
     r.projectOverview ≠ JsonValue.null) ∧
    (jsTruthy r.runningInstructions = true ∧
     r.runningInstructions ≠ JsonValue.str "" ∧
     r.runningInstructions ≠ JsonValue.null) ∧
    (jsTruthy r.configuration = true ∧ r.configuration ≠ JsonValue.str "" ∧
     r.configuration ≠ JsonValue.null) ∧
    (jsTruthy r.troubleshooting = true ∧ r.troubleshooting ≠ JsonValue.str "" ∧
     r.troubleshooting ≠ JsonValue.null) ∧
    (∃ l, r.prerequisites = JsonValue.arr l) ∧
    (∃ l, r.setupSteps = JsonValue.arr l) := by
  have hr : r = buildAnalysisResult v ∧ v ≠ JsonValue.null := by
    cases v with
    | null => exact absurd h (by simp [mkAnalysisResult])
    | bool b => exact ⟨by simpa [mkAnalysisResult] using h.symm, by simp⟩
    | num m e => exact ⟨by simpa [mkAnalysisResult] using h.symm, by simp⟩
    | str s => exact ⟨by simpa [mkAnalysisResult] using h.symm, by simp⟩
    | arr l => exact ⟨by simpa [mkAnalysisResult] using h.symm, by simp⟩
    | obj fields => exact ⟨by simpa [mkAnalysisResult] using h.symm, by simp⟩
  obtain ⟨h1, h2, h3, h4, h5, h6⟩ := buildAnalysisResult_fields v
  rw [hr.1]
  exact ⟨⟨h1, truthy_ne_emptyStr _ h1, truthy_ne_null _ h1⟩,
    ⟨h2, truthy_ne_emptyStr _ h2, truthy_ne_null _ h2⟩,
    ⟨h3, truthy_ne_emptyStr _ h3, truthy_ne_null _ h3⟩,
    ⟨h4, truthy_ne_emptyStr _ h4, truthy_ne_null _ h4⟩, h5, h6⟩

/-- Witness for C8: the empty parsed object yields the all-placeholder
result, and the theorem applies to it. -/
theorem analysisResult_fields_total_witness :
    mkAnalysisResult (JsonValue.obj []) = Except.ok emptyObjResult ∧
    jsTruthy emptyObjResult.projectOverview = true ∧
    (∃ l, emptyObjResult.prerequisites = JsonValue.arr l) := by
  have h := analysisResult_fields_total (JsonValue.obj []) emptyObjResult rfl
  exact ⟨rfl, h.1.1, h.2.2.2.2.1⟩

/-! ## Claim C9 -/

/-- C9 counterexample: on a response with no JSON span, the extractor's
error is not what reaches the caller of the analysis — the catch block
replaces it with the fixed generic message, so the extraction error does
not escalate unwrapped. -/
theorem extraction_error_replaced_counterexample :
    extractJSON "hello" = Except.error "No JSON found in Gemini response" ∧
    analyzeCodebaseParse "hello"
      = Except.error "Failed to parse Gemini API response. Please try again." ∧
    ("No JSON found in Gemini response" : String)
      ≠ "Failed to parse Gemini API response. Please try again." :=
  ⟨rfl, rfl, by decide⟩

/-- C9 (amended): an extraction failure does abort the analysis
immediately — no retry, no fallback result — but the error that escalates
to the caller is the fixed generic replacement, not the extractor's own
error. -/
theorem analyzeParse_replaces_extraction_error (response msg : String)
    (h : extractJSON response = Except.error msg) :
    analyzeCodebaseParse response
      = Except.error "Failed to parse Gemini API response. Please try again." := by
  unfold analyzeCodebaseParse
  rw [h]

/-- Witness for the amended C9 at a concrete failing response. -/
theorem analyzeParse_replaces_extraction_error_witness :
    analyzeCodebaseParse "hello"
      = Except.error "Failed to parse Gemini API response. Please try again." :=
  analyzeParse_replaces_extraction_error "hello" "No JSON found in Gemini response" rfl
